import Mathlib

/-!
Verification of the real-time voice session orchestrator of the
emotionalCheckIn repository (`src/components/LiveSession.tsx`) against its
natural-language specification: the audio frame codec, the transcript
assembler, the playback scheduler cursor, and the session lifecycle state
machine, followed by the theorems settling the specification's claims.

The codec (`src/utils/audioUtils.ts`: `createPcmBlob`, `decodeBase64`,
`decodeAudioData`) is imported by `LiveSession.tsx` but its source file is
not part of the repository snapshot; those definitions are modelled from the
specification (section 4.1) and carry a doc comment saying so. Everything
else is translated directly from `LiveSession.tsx`.
-/

/-- Modelled from the spec: the base64 alphabet character for a 6-bit value
(`decodeBase64`/`createPcmBlob` live in the missing `src/utils/audioUtils.ts`;
the spec prescribes a base64 textual encoding of the byte sequence). -/
def sextetChar (n : Nat) : Char :=
  if n < 26 then Char.ofNat (65 + n)
  else if n < 52 then Char.ofNat (97 + (n - 26))
  else if n < 62 then Char.ofNat (48 + (n - 52))
  else if n = 62 then '+'
  else '/'

/-- Modelled from the spec: the 6-bit value of a base64 alphabet character,
`none` for characters outside the alphabet (including the `=` pad). -/
def charSextet (c : Char) : Option Nat :=
  let n := c.toNat
  if 65 ≤ n ∧ n ≤ 90 then some (n - 65)
  else if 97 ≤ n ∧ n ≤ 122 then some (n - 97 + 26)
  else if 48 ≤ n ∧ n ≤ 57 then some (n - 48 + 52)
  else if n = 43 then some 62
  else if n = 47 then some 63
  else none

/-- Modelled from the spec: base64 encoding of a byte sequence
(three bytes per four characters, `=`-padded tail). -/
def encB64 : List Nat → List Char
  | [] => []
  | [b0] => [sextetChar (b0 / 4), sextetChar (b0 % 4 * 16), '=', '=']
  | [b0, b1] =>
      [sextetChar (b0 / 4), sextetChar (b0 % 4 * 16 + b1 / 16),
       sextetChar (b1 % 16 * 4), '=']
  | b0 :: b1 :: b2 :: rest =>
      sextetChar (b0 / 4) :: sextetChar (b0 % 4 * 16 + b1 / 16) ::
      sextetChar (b1 % 16 * 4 + b2 / 64) :: sextetChar (b2 % 64) ::
      encB64 rest

/-- Modelled from the spec: base64 decoding, `none` on malformed input
(spec 4.1: malformed input signals a DecodeError). -/
def decB64 : List Char → Option (List Nat)
  | [] => some []
  | c0 :: c1 :: c2 :: c3 :: rest =>
    (match charSextet c0, charSextet c1, charSextet c2, charSextet c3,
           decB64 rest with
    | some s0, some s1, some s2, some s3, some tail =>
        some ((s0 * 4 + s1 / 16) :: (s1 % 16 * 16 + s2 / 4) ::
              (s2 % 4 * 64 + s3) :: tail)
    | some s0, some s1, some s2, none, _ =>
      if c3 = '=' ∧ rest = [] then
        some [s0 * 4 + s1 / 16, s1 % 16 * 16 + s2 / 4]
      else none
    | some s0, some s1, none, none, _ =>
      if c2 = '=' ∧ c3 = '=' ∧ rest = [] then some [s0 * 4 + s1 / 16]
      else none
    | _, _, _, _, _ => none)
  | _ => none

/-- Modelled from the spec: quantize one normalized float sample to 16-bit
signed PCM, "clamping to [-1,1] and scaling by 32767" (spec 4.1). -/
def toInt16 (x : ℚ) : Int := ⌊max (-1) (min 1 x) * 32767⌋

/-- Modelled from the spec: the two little-endian bytes of one 16-bit
two's-complement PCM sample. -/
def sampleBytes (x : ℚ) : List Nat :=
  let u := (toInt16 x % 65536).toNat
  [u % 256, u / 256]

/-- Modelled from the spec: the little-endian PCM byte stream of a frame of
float samples. -/
def pcmBytes (samples : List ℚ) : List Nat := samples.flatMap sampleBytes

/-- Modelled from the spec: `createPcmBlob` of the missing
`src/utils/audioUtils.ts` — encodes a float frame as 16-bit little-endian PCM
and base64-encodes the bytes (the blob's media payload). -/
def createPcmBlob (samples : List ℚ) : String :=
  String.mk (encB64 (pcmBytes samples))

/-- Modelled from the spec: `decodeBase64` of the missing
`src/utils/audioUtils.ts` — base64-decodes a received chunk, failing on
malformed input (DecodeError). -/
def decodeBase64 (s : String) : Option (List Nat) := decB64 s.toList

/-- Modelled from the spec: the PCM-to-float half of `decodeAudioData` of the
missing `src/utils/audioUtils.ts` — reads consecutive little-endian 16-bit
samples back to normalized floats (inverse of the scale-by-32767 encoding),
truncating a trailing partial frame (spec 4.1). -/
def decodePcmBytes : List Nat → List ℚ
  | b0 :: b1 :: rest =>
      (let u := b0 + 256 * b1
       (if u < 32768 then (u : ℚ) else (u : ℚ) - 65536) / 32767) ::
      decodePcmBytes rest
  | _ => []

/-- Modelled from the spec: `decodeAudioData` of the missing
`src/utils/audioUtils.ts` — converts a received PCM byte sequence into a
normalized float sample buffer. The repository always calls it with
`channelCount = 1` (mono), for which the byte stream maps directly to the
single channel; a trailing partial sample is truncated (spec 4.1). The
sample-rate argument only fixes the buffer's playback rate (duration =
length / rate at the call site). -/
def decodeAudioData (bytes : List Nat) (_sampleRate _channels : Nat) :
    List ℚ := decodePcmBytes bytes

/-- One finalized transcript entry, `{role, text}` of `transcriptRef`. -/
structure Segment where
  role : String
  text : String
deriving DecidableEq

/-- One transcription delta event: `inputTranscription` (role user) or
`outputTranscription` (role model/remote). -/
inductive Delta
  | input (t : String)
  | output (t : String)
deriving DecidableEq

/-- The assembler state: `transcriptRef`, `currentInputTransRef`,
`currentOutputTransRef`. -/
structure Assembler where
  transcript : List Segment
  curIn : String
  curOut : String
deriving DecidableEq

/-- `currentOutputTransRef.current += text` / `currentInputTransRef.current
+= text` (`onmessage` lines 97-102). -/
def applyDelta (a : Assembler) : Delta → Assembler
  | Delta.input t => { a with curIn := a.curIn ++ t }
  | Delta.output t => { a with curOut := a.curOut ++ t }

/-- The `turnComplete` flush (`onmessage` lines 103-111): push the user
accumulator if non-empty, then the model accumulator if non-empty, clearing
each. -/
def flushTurn (a : Assembler) : Assembler :=
  let a1 := if a.curIn ≠ "" then
      { a with transcript := a.transcript ++ [⟨"user", a.curIn⟩], curIn := "" }
    else a
  if a1.curOut ≠ "" then
    { a1 with transcript := a1.transcript ++ [⟨"model", a1.curOut⟩],
              curOut := "" }
  else a1

/-- `` `${t.role}: ${t.text}` `` (`handleFinish` line 167). -/
def render (s : Segment) : String := s.role ++ ": " ++ s.text

/-- JavaScript `Array.prototype.join('\n')` (`handleFinish` line 167). -/
def joinNL : List String → String
  | [] => ""
  | [s] => s
  | s :: a :: t => s ++ "\n" ++ joinNL (a :: t)

/-- `handleFinish` (`LiveSession.tsx` lines 165-176): newline-join the
rendered segments, append each pending accumulator prefixed by a newline and
its role, and fall back to the silent-session sentinel if the result is the
empty string. -/
def handleFinish (a : Assembler) : String :=
  let base := joinNL (a.transcript.map render)
  let f1 := if a.curIn ≠ "" then base ++ "\nuser: " ++ a.curIn else base
  let f2 := if a.curOut ≠ "" then f1 ++ "\nmodel: " ++ a.curOut else f1
  if f2 = "" then "User engaged in a silent meditative session." else f2

/-- Modelled from the spec (4.4 output contract), for comparison with
`handleFinish`: flush still-pending accumulators as segments in the fixed
order, then return the newline-joined role-prefixed rendering of all
segments, with the sentinel when no segments exist. -/
def specFinalize (a : Assembler) : String :=
  let segs := (flushTurn a).transcript
  if segs = [] then "User engaged in a silent meditative session."
  else joinNL (segs.map render)

/-- In-order concatenation of a list of strings. -/
def concatAll : List String → String
  | [] => ""
  | s :: rest => s ++ concatAll rest

/-- The texts of the user-role (input) deltas, in order. -/
def inputTexts (ds : List Delta) : List String :=
  ds.filterMap fun d => match d with
    | Delta.input t => some t
    | Delta.output _ => none

/-- The texts of the model-role (output) deltas, in order. -/
def outputTexts (ds : List Delta) : List String :=
  ds.filterMap fun d => match d with
    | Delta.input _ => none
    | Delta.output t => some t

/-- The playback-scheduler cursor arithmetic of `onmessage`, abstracted over
the decoded buffers: each event is a pair `(deviceClockNow, duration)`.
Line 120: `nextStartTimeRef.current = Math.max(nextStartTimeRef.current,
ctx.currentTime)`; line 134: `source.start(nextStartTimeRef.current)`;
line 135: `nextStartTimeRef.current += audioBuffer.duration`. Returns the
scheduled start times. -/
def schedStarts (next : ℚ) : List (ℚ × ℚ) → List ℚ
  | [] => []
  | (now, d) :: rest => max next now :: schedStarts (max next now + d) rest

/-- The `status` React state (`LiveSession.tsx` line 12). -/
inductive Status
  | connecting
  | connected
  | error
  | disconnected
deriving DecidableEq

structure LS where
  status : Status
  isActive : Bool
  isSpeaking : Bool
  isUserSpeaking : Bool
  streamAcquired : Bool
  micLive : Bool
  micStops : Nat
  inCtxSet : Bool
  inCtxOpen : Bool
  outCtxSet : Bool
  outCtxOpen : Bool
  sessionSet : Bool
  sessionClosed : Bool
  asm : Assembler
  nextStartTime : ℚ
  sources : Nat
  scheduled : List (ℚ × ℚ)
  sent : List String
deriving DecidableEq

/-- The state at mount time (`useState` initializers and `useRef` initial
values, `LiveSession.tsx` lines 12-31). -/
def initLS : LS :=
  { status := Status.connecting
    isActive := true
    isSpeaking := false
    isUserSpeaking := false
    streamAcquired := false
    micLive := false
    micStops := 0
    inCtxSet := false
    inCtxOpen := false
    outCtxSet := false
    outCtxOpen := false
    sessionSet := false
    sessionClosed := false
    asm := ⟨[], "", ""⟩
    nextStartTime := 0
    sources := 0
    scheduled := []
    sent := [] }

/-- One inbound `LiveServerMessage` as consumed by `onmessage`
(`LiveSession.tsx` lines 93-137): the optional per-role transcription
deltas, the `turnComplete` flag, and the optional base64 audio payload
`message.serverContent?.modelTurn?.parts?.[0]?.inlineData?.data`. -/
structure Msg where
  outputTranscription : Option String
  inputTranscription : Option String
  turnComplete : Bool
  audioData : Option String
deriving DecidableEq

/-- The `onmessage` callback (`LiveSession.tsx` lines 93-137) at device
clock `now` (`ctx.currentTime`). Decode failure of the audio payload
(`decodeBase64` throwing inside the async callback) aborts the rest of the
handler after `setIsSpeaking(true)` and the cursor clamp have already run;
the exception does not touch any other state. -/
def onMessage (s : LS) (m : Msg) (now : ℚ) : LS :=
  if s.isActive then
    let a1 := match m.outputTranscription with
      | some t => applyDelta s.asm (Delta.output t)
      | none => s.asm
    let a2 := match m.inputTranscription with
      | some t => applyDelta a1 (Delta.input t)
      | none => a1
    let a3 := if m.turnComplete then flushTurn a2 else a2
    let sp := if m.turnComplete then false else s.isSpeaking
    let s3 : LS := { s with asm := a3, isSpeaking := sp }
    match m.audioData with
    | none => s3
    | some b64 =>
      if b64 ≠ "" ∧ s3.outCtxSet then
        let t0 := max s3.nextStartTime now
        let s4 := { s3 with isSpeaking := true, nextStartTime := t0 }
        match decodeBase64 b64 with
        | none => s4
        | some bytes =>
          let buf := decodeAudioData bytes 24000 1
          let d := (buf.length : ℚ) / 24000
          { s4 with scheduled := s4.scheduled ++ [(t0, d)],
                    nextStartTime := t0 + d,
                    sources := s4.sources + 1 }
      else s3
  else s

/-- The mean square of a capture block; the source compares
`rms = sqrt(meanSquare) > 0.02` (`LiveSession.tsx` line 80-81), which for
nonnegative quantities is equivalent to `meanSquare > 0.0004 = 1/2500`. -/
def meanSquare (xs : List ℚ) : ℚ :=
  (xs.map fun x => x * x).sum / (xs.length : ℚ)

/-- The `onaudioprocess` capture callback (`LiveSession.tsx` lines 75-87):
guard on `isActive`, update the speech-activity indicator from the RMS
threshold, encode the block with `createPcmBlob` and send it once the
session promise resolves (`sessionPromise?.then`: no send when the promise
local is still null). -/
def onAudioBlock (s : LS) (xs : List ℚ) : LS :=
  if s.isActive then
    { s with isUserSpeaking := decide ((1 : ℚ) / 2500 < meanSquare xs)
             sent := if s.sessionSet then s.sent ++ [createPcmBlob xs]
                     else s.sent }
  else s

/-- The `ended` listener of a playback source (`LiveSession.tsx` lines
129-132): remove the source from the active set and clear the speaking
indicator when the set becomes empty. Not guarded by `isActive`. -/
def onSrcEnded (s : LS) : LS :=
  let n := s.sources - 1
  { s with sources := n, isSpeaking := if n = 0 then false else s.isSpeaking }

/-- The `onopen` callback (`LiveSession.tsx` lines 64-91): when still
active, mark the session connected (it also wires the capture pipeline,
whose block events are modelled separately as `onAudioBlock`). -/
def onOpen (s : LS) : LS :=
  if s.isActive then { s with status := Status.connected } else s

/-- The `onerror` callback (`LiveSession.tsx` lines 142-145): set the error
status. Not guarded by `isActive`. -/
def onError (s : LS) : LS := { s with status := Status.error }

/-- The `onclose` callback (`LiveSession.tsx` lines 139-141): only logs;
the state is untouched. -/
def onClose (s : LS) : LS := s

/-- The effect cleanup (`LiveSession.tsx` lines 156-162), run on
cancel/finish (unmount): clear `isActive`, close the session if the promise
local is set, stop the microphone tracks if the stream ref is set (a live
track is actually stopped exactly once), and close both audio contexts if
their refs are set. None of these platform calls throws synchronously. -/
def cleanupFn (s : LS) : LS :=
  { s with
    isActive := false
    sessionClosed := s.sessionSet || s.sessionClosed
    micLive := if s.streamAcquired then false else s.micLive
    micStops := if s.streamAcquired && s.micLive then s.micStops + 1
                else s.micStops
    inCtxOpen := if s.inCtxSet then false else s.inCtxOpen
    outCtxOpen := if s.outCtxSet then false else s.outCtxOpen }

/-- The discrete asynchronous events of one session (`startSession`'s own
suspension points plus the transport callbacks, spec section 5). `ctxCreate`
is the synchronous context setup before the first await (lines 38-39);
`acquireOk`/`acquireFail` is the resolution of `getUserMedia` (line 42;
`startSession` does not re-check `isActive` after this await, and the
rejection lands in the catch at lines 148-151); `connectOk`/`connectFail`
is the resolution of `ai.live.connect` (line 45). -/
inductive Ev
  | ctxCreate
  | acquireOk
  | acquireFail
  | connectOk
  | connectFail
  | evOpen
  | evError
  | evClose
  | msg (m : Msg) (now : ℚ)
  | audioBlock (xs : List ℚ)
  | srcEnded
  | cleanup
deriving DecidableEq

/-- Single dispatch of one asynchronous event. -/
def step (s : LS) : Ev → LS
  | Ev.ctxCreate =>
      { s with inCtxSet := true, inCtxOpen := true,
               outCtxSet := true, outCtxOpen := true }
  | Ev.acquireOk => { s with streamAcquired := true, micLive := true }
  | Ev.acquireFail => { s with status := Status.error }
  | Ev.connectOk => { s with sessionSet := true }
  | Ev.connectFail => { s with status := Status.error }
  | Ev.evOpen => onOpen s
  | Ev.evError => onError s
  | Ev.evClose => onClose s
  | Ev.msg m now => onMessage s m now
  | Ev.audioBlock xs => onAudioBlock s xs
  | Ev.srcEnded => onSrcEnded s
  | Ev.cleanup => cleanupFn s

/-- Run a trace of events from a state. -/
def run (s : LS) (tr : List Ev) : LS := tr.foldl step s

/-- Environment constraint on traces (spec 4.5/6): the transport delivers
the handshake-open callback only for a connect call, which `startSession`
issues only after device acquisition succeeded; so every `evOpen` is
preceded by an `acquireOk`. -/
def envOk (tr : List Ev) : Prop :=
  ∀ i : Fin tr.length, tr.get i = Ev.evOpen →
    ∃ j : Fin tr.length, j.val < i.val ∧ tr.get j = Ev.acquireOk

instance (tr : List Ev) : Decidable (envOk tr) := by
  unfold envOk; infer_instance

/-- A message carrying a single transcription delta and nothing else. -/
def deltaMsg : Delta → Msg
  | Delta.input t => ⟨none, some t, false, none⟩
  | Delta.output t => ⟨some t, none, false, none⟩

/-- A message carrying only the turn-complete marker. -/
def turnMsg : Msg := ⟨none, none, true, none⟩

/-- A message carrying only an audio payload. -/
def audioMsg (b : String) : Msg := ⟨none, none, false, some b⟩

/-! ## Theorems -/
theorem charSextet_sextetChar (s : Nat) (h : s < 64) :
    charSextet (sextetChar s) = some s := by
  have H : ∀ t : Fin 64, charSextet (sextetChar t.val) = some t.val := by decide
  exact H ⟨s, h⟩

theorem charSextet_pad : charSextet '=' = none := by decide

/-- Base64 round-trip on byte sequences. -/
theorem decB64_encB64 : ∀ bytes : List Nat,
    (∀ b ∈ bytes, b < 256) → decB64 (encB64 bytes) = some bytes
  | [], _ => by simp [encB64, decB64]
  | [b0], h => by
    have hb0 : b0 < 256 := h b0 (by simp)
    have e0 : charSextet (sextetChar (b0 / 4)) = some (b0 / 4) :=
      charSextet_sextetChar _ (by omega)
    have e1 : charSextet (sextetChar (b0 % 4 * 16)) = some (b0 % 4 * 16) :=
      charSextet_sextetChar _ (by omega)
    simp only [encB64, decB64, e0, e1, charSextet_pad]
    simp
    omega
  | [b0, b1], h => by
    have hb0 : b0 < 256 := h b0 (by simp)
    have hb1 : b1 < 256 := h b1 (by simp)
    have e0 : charSextet (sextetChar (b0 / 4)) = some (b0 / 4) :=
      charSextet_sextetChar _ (by omega)
    have e1 : charSextet (sextetChar (b0 % 4 * 16 + b1 / 16)) =
        some (b0 % 4 * 16 + b1 / 16) :=
      charSextet_sextetChar _ (by omega)
    have e2 : charSextet (sextetChar (b1 % 16 * 4)) = some (b1 % 16 * 4) :=
      charSextet_sextetChar _ (by omega)
    simp only [encB64, decB64, e0, e1, e2, charSextet_pad]
    simp
    omega
  | b0 :: b1 :: b2 :: rest, h => by
    have hb0 : b0 < 256 := h b0 (by simp)
    have hb1 : b1 < 256 := h b1 (by simp)
    have hb2 : b2 < 256 := h b2 (by simp)
    have ih := decB64_encB64 rest (fun b hb =>
      h b (List.mem_cons_of_mem _ (List.mem_cons_of_mem _
        (List.mem_cons_of_mem _ hb))))
    have e0 : charSextet (sextetChar (b0 / 4)) = some (b0 / 4) :=
      charSextet_sextetChar _ (by omega)
    have e1 : charSextet (sextetChar (b0 % 4 * 16 + b1 / 16)) =
        some (b0 % 4 * 16 + b1 / 16) :=
      charSextet_sextetChar _ (by omega)
    have e2 : charSextet (sextetChar (b1 % 16 * 4 + b2 / 64)) =
        some (b1 % 16 * 4 + b2 / 64) :=
      charSextet_sextetChar _ (by omega)
    have e3 : charSextet (sextetChar (b2 % 64)) = some (b2 % 64) :=
      charSextet_sextetChar _ (by omega)
    simp only [encB64, decB64, e0, e1, e2, e3, ih]
    simp
    omega

/-- Little-endian two's-complement round-trip of the quantized value. -/
theorem decodePcmBytes_sampleBytes (x : ℚ) (rest : List Nat) :
    decodePcmBytes (sampleBytes x ++ rest) =
      ((toInt16 x : ℚ) / 32767) :: decodePcmBytes rest := by
  have hq : -32767 ≤ toInt16 x ∧ toInt16 x ≤ 32767 := by
    constructor
    · have h1 : (-1 : ℚ) ≤ max (-1) (min 1 x) := le_max_left _ _
      have : (-32767 : ℚ) ≤ max (-1) (min 1 x) * 32767 := by nlinarith
      have := Int.le_floor.mpr (by exact_mod_cast this)
      exact this
    · have h1 : max (-1) (min 1 x) ≤ 1 := by
        apply max_le
        · norm_num
        · exact le_trans (min_le_left _ _) le_rfl
      have h2 : max (-1) (min 1 x) * 32767 ≤ 32767 := by nlinarith
      have := Int.floor_le_floor (α := ℚ) h2
      simpa using le_trans this (by norm_num)
  set q := toInt16 x with hqdef
  have h65 : (0 : Int) ≤ q % 65536 := Int.emod_nonneg q (by norm_num)
  have h65' : q % 65536 < 65536 := Int.emod_lt_of_pos q (by norm_num)
  set u := (q % 65536).toNat with hu
  have hu65 : u < 65536 := by omega
  have hbytes : sampleBytes x = [u % 256, u / 256] := rfl
  have hrec : u % 256 + 256 * (u / 256) = u := by omega
  rw [hbytes]
  simp only [List.cons_append, List.nil_append, decodePcmBytes, hrec]
  congr 1
  by_cases hpos : 0 ≤ q
  · have hqu : q % 65536 = q := by omega
    have huq : (u : Int) = q := by omega
    have hlt : u < 32768 := by omega
    rw [if_pos hlt]
    congr 1
    exact_mod_cast huq
  · push_neg at hpos
    have hqu : q % 65536 = q + 65536 := by omega
    have huq : (u : Int) = q + 65536 := by omega
    have hge : ¬ u < 32768 := by omega
    rw [if_neg hge]
    congr 1
    have : ((u : ℚ) : ℚ) = ((q : ℚ) + 65536) := by exact_mod_cast huq
    linarith [this]

/-- All bytes produced by the PCM packer are in range. -/
theorem pcmBytes_lt (samples : List ℚ) : ∀ b ∈ pcmBytes samples, b < 256 := by
  intro b hb
  simp only [pcmBytes, List.mem_flatMap] at hb
  obtain ⟨x, -, hbx⟩ := hb
  have h65 : (0 : Int) ≤ toInt16 x % 65536 := Int.emod_nonneg _ (by norm_num)
  have h65' : toInt16 x % 65536 < 65536 := Int.emod_lt_of_pos _ (by norm_num)
  simp only [sampleBytes, List.mem_cons, List.not_mem_nil, or_false] at hbx
  rcases hbx with h | h <;> subst h <;> omega

/-- Quantization error of one in-range sample. -/
theorem quant_error (x : ℚ) (h1 : -1 ≤ x) (h2 : x ≤ 1) :
    |(toInt16 x : ℚ) / 32767 - x| ≤ 1 / 32767 := by
  have hc : max (-1) (min 1 x) = x := by
    rw [min_eq_right h2, max_eq_right h1]
  have hq : toInt16 x = ⌊x * 32767⌋ := by rw [toInt16, hc]
  have hf1 : ((⌊x * 32767⌋ : Int) : ℚ) ≤ x * 32767 := Int.floor_le _
  have hf2 : x * 32767 < (⌊x * 32767⌋ : Int) + 1 := Int.lt_floor_add_one _
  rw [hq, abs_le]
  constructor <;> push_cast at hf1 hf2 ⊢ <;> linarith

/-- C9: `decode(encode(samples))` reproduces every in-range sample within
1/32767: the base64 transport layer is lossless on the packed PCM bytes, and
the only loss is 16-bit quantization. (The spec's data model fixes AudioFrame
samples to the normalized range [-1.0, 1.0].) -/
theorem c9_codec_roundtrip (samples : List ℚ)
    (h : ∀ x ∈ samples, -1 ≤ x ∧ x ≤ 1) :
    decodeBase64 (createPcmBlob samples) = some (pcmBytes samples) ∧
    List.Forall₂ (fun y x => |y - x| ≤ 1 / 32767)
      (decodeAudioData (pcmBytes samples) 24000 1) samples := by
  constructor
  · have : (createPcmBlob samples).toList = encB64 (pcmBytes samples) := rfl
    rw [decodeBase64, this]
    exact decB64_encB64 _ (pcmBytes_lt samples)
  · rw [decodeAudioData]
    induction samples with
    | nil => simp [pcmBytes, decodePcmBytes]
    | cons x rest ih =>
      have hx := h x (by simp)
      have hrest : ∀ y ∈ rest, -1 ≤ y ∧ y ≤ 1 :=
        fun y hy => h y (List.mem_cons_of_mem _ hy)
      have hsplit : pcmBytes (x :: rest) = sampleBytes x ++ pcmBytes rest := by
        simp [pcmBytes]
      rw [hsplit, decodePcmBytes_sampleBytes]
      exact List.Forall₂.cons (quant_error x hx.1 hx.2) (ih hrest)

/-- Witness for C9 at a concrete frame. -/
theorem c9_codec_roundtrip_witness :
    (∀ x ∈ [(1 : ℚ) / 2, -1 / 3, 1, -1, 0], -1 ≤ x ∧ x ≤ 1) ∧
    (decodeBase64 (createPcmBlob [(1 : ℚ) / 2, -1 / 3, 1, -1, 0]) =
        some (pcmBytes [(1 : ℚ) / 2, -1 / 3, 1, -1, 0]) ∧
      List.Forall₂ (fun y x => |y - x| ≤ 1 / 32767)
        (decodeAudioData (pcmBytes [(1 : ℚ) / 2, -1 / 3, 1, -1, 0]) 24000 1)
        [(1 : ℚ) / 2, -1 / 3, 1, -1, 0]) :=
  ⟨by norm_num, c9_codec_roundtrip _ (by norm_num)⟩

theorem foldl_applyDelta (a : Assembler) (ds : List Delta) :
    ds.foldl applyDelta a =
      ⟨a.transcript, a.curIn ++ concatAll (inputTexts ds),
        a.curOut ++ concatAll (outputTexts ds)⟩ := by
  induction ds generalizing a with
  | nil => simp [inputTexts, outputTexts, concatAll]
  | cons d rest ih =>
    cases d with
    | input t =>
      rw [List.foldl_cons, ih]
      simp [applyDelta, inputTexts, outputTexts, concatAll,
        List.filterMap_cons, String.append_assoc]
    | output t =>
      rw [List.foldl_cons, ih]
      simp [applyDelta, inputTexts, outputTexts, concatAll,
        List.filterMap_cons, String.append_assoc]


theorem schedStarts_gap (evs : List (ℚ × ℚ)) : ∀ (next : ℚ) (i : Nat),
    i + 1 < evs.length →
    (schedStarts next evs).getD i 0 + (evs.getD i (0, 0)).2 ≤
      (schedStarts next evs).getD (i + 1) 0 := by
  induction evs with
  | nil => intro next i h; simp at h
  | cons ev rest ih =>
    intro next i h
    obtain ⟨now, d⟩ := ev
    cases i with
    | zero =>
      cases rest with
      | nil => simp at h
      | cons ev2 rest2 =>
        obtain ⟨now2, d2⟩ := ev2
        simp only [schedStarts, List.getD_cons_zero, List.getD_cons_succ]
        exact le_max_left _ _
    | succ j =>
      simp only [schedStarts, List.getD_cons_succ]
      simp only [List.length_cons] at h
      exact ih (max next now + d) j (by omega)

/-- C1: the Playback Scheduler schedules each buffer at
`startTime = max(nextStartTime, deviceClockNow)` and advances the cursor by
the buffer's duration, so no buffer starts before the previous one's end;
for durations 1.0, 0.5, 2.0 arriving at clock times 0, 0.2, 3.0 the start
times are 0.0, 1.0, 3.0. -/
theorem c1_scheduler_no_overlap :
    (∀ (next now d : ℚ) (rest : List (ℚ × ℚ)),
        schedStarts next ((now, d) :: rest) =
          max next now :: schedStarts (max next now + d) rest)
  ∧ (∀ (next : ℚ) (evs : List (ℚ × ℚ)) (i : Nat), i + 1 < evs.length →
        (schedStarts next evs).getD i 0 + (evs.getD i (0, 0)).2 ≤
          (schedStarts next evs).getD (i + 1) 0)
  ∧ schedStarts 0 [(0, 1), (1 / 5, 1 / 2), (3, 2)] = [0, 1, 3] := by
  refine ⟨fun next now d rest => rfl, fun next evs => schedStarts_gap evs next, ?_⟩
  norm_num [schedStarts, max_def]

/-- Witness for C1's universally quantified no-overlap part, at the spec's
end-to-end scenario 3. -/
theorem c1_scheduler_no_overlap_witness :
    (0 + 1 < ([((0 : ℚ), (1 : ℚ)), (1 / 5, 1 / 2), (3, 2)]).length)
  ∧ (schedStarts 0 [((0 : ℚ), (1 : ℚ)), (1 / 5, 1 / 2), (3, 2)]).getD 0 0
      + (([((0 : ℚ), (1 : ℚ)), (1 / 5, 1 / 2), (3, 2)]).getD 0 (0, 0)).2
      ≤ (schedStarts 0 [((0 : ℚ), (1 : ℚ)), (1 / 5, 1 / 2), (3, 2)]).getD 1 0 :=
  ⟨by norm_num,
   c1_scheduler_no_overlap.2.1 0 [((0 : ℚ), (1 : ℚ)), (1 / 5, 1 / 2), (3, 2)]
     0 (by norm_num)⟩

theorem onMessage_delta (s : LS) (d : Delta) (now : ℚ)
    (h : s.isActive = true) :
    onMessage s (deltaMsg d) now = { s with asm := applyDelta s.asm d } := by
  cases d <;> simp [onMessage, deltaMsg, h]

theorem onMessage_turn (s : LS) (now : ℚ) (h : s.isActive = true) :
    onMessage s turnMsg now =
      { s with asm := flushTurn s.asm, isSpeaking := false } := by
  simp [onMessage, turnMsg, h]

theorem foldl_onMessage_delta (s0 : LS) (ds : List Delta) (now : ℚ)
    (h : s0.isActive = true) :
    List.foldl (fun s d => onMessage s (deltaMsg d) now) s0 ds
      = { s0 with asm := ds.foldl applyDelta s0.asm } := by
  induction ds generalizing s0 with
  | nil => simp
  | cons d rest ih =>
    rw [List.foldl_cons, List.foldl_cons, onMessage_delta _ _ _ h,
      ih { s0 with asm := applyDelta s0.asm d } h]

theorem flushTurn_eq (t : List Segment) (i o : String) :
    flushTurn ⟨t, i, o⟩ =
      ⟨t ++ (if i ≠ "" then [⟨"user", i⟩] else [])
         ++ (if o ≠ "" then [⟨"model", o⟩] else []), "", ""⟩ := by
  by_cases hi : i = "" <;> by_cases ho : o = "" <;>
    simp [flushTurn, hi, ho]

/-- C2: a turn-complete marker after a sequence of per-role delta messages
appends exactly one segment per role with non-empty accumulated text, user
before model (the spec's `remote`), each segment's text being the in-order
concatenation of that role's deltas, and clears both accumulators. -/
theorem c2_turn_flush (s0 : LS) (ds : List Delta) (now : ℚ)
    (hA : s0.isActive = true) (hIn : s0.asm.curIn = "")
    (hOut : s0.asm.curOut = "") :
    let sF := onMessage
      (List.foldl (fun s d => onMessage s (deltaMsg d) now) s0 ds) turnMsg now
    sF.asm.transcript = s0.asm.transcript
        ++ (if concatAll (inputTexts ds) ≠ "" then
              [⟨"user", concatAll (inputTexts ds)⟩] else [])
        ++ (if concatAll (outputTexts ds) ≠ "" then
              [⟨"model", concatAll (outputTexts ds)⟩] else [])
      ∧ sF.asm.curIn = "" ∧ sF.asm.curOut = "" := by
  intro sF
  have hfold := foldl_onMessage_delta s0 ds now hA
  have hF : sF = { s0 with
      asm := flushTurn (ds.foldl applyDelta s0.asm), isSpeaking := false } := by
    show onMessage _ turnMsg now = _
    rw [hfold]
    exact onMessage_turn _ now hA
  rw [hF]
  rw [foldl_applyDelta s0.asm ds, hIn, hOut]
  simp only [String.empty_append]
  rw [flushTurn_eq]
  exact ⟨rfl, rfl, rfl⟩

/-- Witness for C2 at a concrete delta sequence. -/
theorem c2_turn_flush_witness :
    (initLS.isActive = true ∧ initLS.asm.curIn = "" ∧ initLS.asm.curOut = "")
  ∧ (let sF := onMessage
      (List.foldl (fun s d => onMessage s (deltaMsg d) 0) initLS
        [Delta.input "I feel", Delta.input " anxious", Delta.output "Hi"])
      turnMsg 0
     sF.asm.transcript = initLS.asm.transcript
        ++ (if concatAll (inputTexts
              [Delta.input "I feel", Delta.input " anxious",
               Delta.output "Hi"]) ≠ "" then
              [⟨"user", concatAll (inputTexts
                [Delta.input "I feel", Delta.input " anxious",
                 Delta.output "Hi"])⟩] else [])
        ++ (if concatAll (outputTexts
              [Delta.input "I feel", Delta.input " anxious",
               Delta.output "Hi"]) ≠ "" then
              [⟨"model", concatAll (outputTexts
                [Delta.input "I feel", Delta.input " anxious",
                 Delta.output "Hi"])⟩] else [])
      ∧ sF.asm.curIn = "" ∧ sF.asm.curOut = "") :=
  ⟨⟨rfl, rfl, rfl⟩,
   c2_turn_flush initLS
     [Delta.input "I feel", Delta.input " anxious", Delta.output "Hi"]
     0 rfl rfl rfl⟩

theorem str_length_pos (s : String) (h : s ≠ "") : 0 < s.length := by
  cases s with
  | mk data =>
    cases data with
    | nil => exact absurd rfl h
    | cons c cs => simp [String.length]

theorem render_length (seg : Segment) :
    (render seg).length = seg.role.length + 2 + seg.text.length := by
  have h2 : (": " : String).length = 2 := rfl
  simp [render, String.length_append, h2]

theorem joinNL_cons_length (x : String) (l : List String) :
    x.length ≤ (joinNL (x :: l)).length := by
  cases l with
  | nil => simp [joinNL]
  | cons y m =>
    simp [joinNL, String.length_append]
    omega

theorem joinNL_render_ne (t : Segment) (ts : List Segment) :
    joinNL ((t :: ts).map render) ≠ "" := by
  intro h
  have h1 : (render t).length ≤ (joinNL ((t :: ts).map render)).length := by
    simpa using joinNL_cons_length (render t) (ts.map render)
  rw [h] at h1
  have h2 := render_length t
  simp at h1
  omega

theorem joinNL_append_singleton (l : List String) (x : String) (h : l ≠ []) :
    joinNL (l ++ [x]) = joinNL l ++ "\n" ++ x := by
  induction l with
  | nil => exact absurd rfl h
  | cons y m ih =>
    cases m with
    | nil => simp [joinNL]
    | cons z m2 =>
      have ih2 := ih (by simp)
      simp only [List.cons_append, List.append_eq, joinNL] at ih2 ⊢
      rw [ih2]
      simp only [String.append_assoc]

theorem str_append_ne (a b : String) (h : a ≠ "") : a ++ b ≠ "" := by
  intro he
  have hl := congrArg String.length he
  rw [String.length_append] at hl
  have := str_length_pos a h
  simp at hl
  omega

theorem append_user (b i : String) :
    b ++ "\nuser: " ++ i = b ++ "\n" ++ ("user" ++ (": " ++ i)) := by
  rw [String.append_assoc, String.append_assoc]
  congr 1

theorem append_model (b o : String) :
    b ++ "\nmodel: " ++ o = b ++ "\n" ++ ("model" ++ (": " ++ o)) := by
  rw [String.append_assoc, String.append_assoc]
  congr 1

theorem handleFinish_eq_specFinalize (a : Assembler)
    (h : a.transcript ≠ [] ∨ (a.curIn = "" ∧ a.curOut = "")) :
    handleFinish a = specFinalize a := by
  obtain ⟨t, i, o⟩ := a
  rcases h with ht | ⟨hi, ho⟩
  · obtain ⟨t0, ts, rfl⟩ : ∃ t0 ts, t = t0 :: ts := by
      cases t with
      | nil => exact absurd rfl ht
      | cons t0 ts => exact ⟨t0, ts, rfl⟩
    have hbase := joinNL_render_ne t0 ts
    by_cases hi : i = "" <;> by_cases ho : o = "" <;>
      simp only [handleFinish, specFinalize, flushTurn_eq, hi, ho,
        ne_eq, not_true_eq_false, not_false_eq_true, if_true, if_false,
        ite_true, ite_false, List.append_nil]
    · simp only [List.map_cons] at hbase
      simp [hbase]
    · -- i = "", o ≠ ""
      have hne : joinNL ((t0 :: ts).map render) ++ "\nmodel: " ++ o ≠ "" :=
        str_append_ne _ _ (str_append_ne _ _ hbase)
      rw [if_neg hne, if_neg (by simp)]
      simp only [List.map_append, List.map_cons, List.map_nil]
      rw [joinNL_append_singleton _ _ (by simp)]
      exact append_model _ o
    · -- i ≠ "", o = ""
      have hne : joinNL ((t0 :: ts).map render) ++ "\nuser: " ++ i ≠ "" :=
        str_append_ne _ _ (str_append_ne _ _ hbase)
      rw [if_neg hne, if_neg (by simp)]
      simp only [List.map_append, List.map_cons, List.map_nil]
      rw [joinNL_append_singleton _ _ (by simp)]
      exact append_user _ i
    · -- both pending
      have hne : joinNL ((t0 :: ts).map render) ++ "\nuser: " ++ i
          ++ "\nmodel: " ++ o ≠ "" :=
        str_append_ne _ _ (str_append_ne _ _
          (str_append_ne _ _ (str_append_ne _ _ hbase)))
      rw [if_neg hne, if_neg (by simp)]
      simp only [List.map_append, List.map_cons, List.map_nil]
      rw [joinNL_append_singleton _ _ (by simp),
        joinNL_append_singleton _ _ (by simp)]
      rw [append_user, append_model]
      rfl
  · replace hi : i = "" := hi
    replace ho : o = "" := ho
    subst hi
    subst ho
    by_cases htn : t = []
    · subst htn
      rfl
    · obtain ⟨t0, ts, rfl⟩ : ∃ t0 ts, t = t0 :: ts := by
        cases t with
        | nil => exact absurd rfl htn
        | cons t0 ts => exact ⟨t0, ts, rfl⟩
      have hbase := joinNL_render_ne t0 ts
      simp only [List.map_cons] at hbase
      simp [handleFinish, specFinalize, flushTurn_eq, hbase]

/-- Counterexample to C3 as stated: at finish time with no finalized segment
and a pending user accumulator (deltas received but no turn-complete yet),
`handleFinish` prefixes the flushed pending text with a newline, so the
output is not the newline-joined rendering of the flushed segments. -/
theorem c3_counterexample :
    handleFinish ⟨[], "I feel anxious", ""⟩ = "\nuser: I feel anxious"
  ∧ specFinalize ⟨[], "I feel anxious", ""⟩ = "user: I feel anxious"
  ∧ handleFinish ⟨[], "I feel anxious", ""⟩
      ≠ specFinalize ⟨[], "I feel anxious", ""⟩ := by
  refine ⟨rfl, rfl, ?_⟩
  decide

/-- C3 (amended): `handleFinish` equals the spec's newline-joined,
role-prefixed rendering of all segments with pending accumulators flushed
user-before-model, whenever at least one finalized segment exists or no
accumulator is pending; when the segment list is empty but an accumulator is
pending, the output instead carries a leading newline (see the
counterexample). The concrete two-turn scenario yields exactly
"user: I feel anxious\nmodel: That sounds difficult.". -/
theorem c3_finalize :
    (∀ a : Assembler, a.transcript ≠ [] ∨ (a.curIn = "" ∧ a.curOut = "") →
        handleFinish a = specFinalize a)
  ∧ handleFinish
      (flushTurn (applyDelta (applyDelta
        (flushTurn (applyDelta (applyDelta ⟨[], "", ""⟩
          (Delta.input "I feel")) (Delta.input " anxious")))
        (Delta.output "That sounds")) (Delta.output " difficult.")))
      = "user: I feel anxious\nmodel: That sounds difficult." := by
  refine ⟨handleFinish_eq_specFinalize, ?_⟩
  decide

/-- Witness for C3's universally quantified part at a state with one
finalized segment and a pending model accumulator. -/
theorem c3_finalize_witness :
    ((⟨[⟨"user", "I feel anxious"⟩], "", "That sounds"⟩ : Assembler).transcript
        ≠ [] ∨ (("" : String) = "" ∧ ("That sounds" : String) = ""))
  ∧ handleFinish ⟨[⟨"user", "I feel anxious"⟩], "", "That sounds"⟩
      = specFinalize ⟨[⟨"user", "I feel anxious"⟩], "", "That sounds"⟩ :=
  ⟨Or.inl (by decide),
   c3_finalize.1 ⟨[⟨"user", "I feel anxious"⟩], "", "That sounds"⟩
     (Or.inl (by decide))⟩

/-- C4: finishing a session with zero transcription events returns the fixed
silent-session sentinel, and `handleFinish` never returns an empty string
(every result has positive length). -/
theorem c4_sentinel :
    handleFinish ⟨[], "", ""⟩ = "User engaged in a silent meditative session."
  ∧ ∀ a : Assembler, 0 < (handleFinish a).length := by
  refine ⟨rfl, ?_⟩
  intro a
  by_cases h1 : a.curIn = "" <;> by_cases h2 : a.curOut = "" <;>
    simp only [handleFinish, h1, h2, ne_eq, not_true_eq_false,
      not_false_eq_true, if_true, if_false, ite_true, ite_false,
      ite_not] <;>
  split_ifs with h3 <;>
    first
      | decide
      | exact str_length_pos _ h3

theorem onMessage_frame (s : LS) (m : Msg) (now : ℚ) :
    (onMessage s m now).status = s.status
  ∧ (onMessage s m now).isActive = s.isActive := by
  unfold onMessage
  dsimp only
  repeat' split
  all_goals exact ⟨rfl, rfl⟩

theorem onAudioBlock_frame (s : LS) (xs : List ℚ) :
    (onAudioBlock s xs).status = s.status
  ∧ (onAudioBlock s xs).isActive = s.isActive := by
  unfold onAudioBlock
  split <;> exact ⟨rfl, rfl⟩

theorem step_status (s : LS) (e : Ev) :
    (step s e).status = s.status ∨ (step s e).status = Status.error
      ∨ e = Ev.evOpen := by
  cases e with
  | ctxCreate => exact Or.inl rfl
  | acquireOk => exact Or.inl rfl
  | acquireFail => exact Or.inr (Or.inl rfl)
  | connectOk => exact Or.inl rfl
  | connectFail => exact Or.inr (Or.inl rfl)
  | evOpen => exact Or.inr (Or.inr rfl)
  | evError => exact Or.inr (Or.inl rfl)
  | evClose => exact Or.inl rfl
  | msg m now => exact Or.inl (onMessage_frame s m now).1
  | audioBlock xs => exact Or.inl (onAudioBlock_frame s xs).1
  | srcEnded => exact Or.inl rfl
  | cleanup => exact Or.inl rfl

theorem run_connected_mem : ∀ (tr : List Ev) (s : LS),
    (List.foldl step s tr).status = Status.connected →
      s.status = Status.connected ∨ Ev.evOpen ∈ tr := by
  intro tr
  induction tr with
  | nil => intro s h; exact Or.inl h
  | cons e rest ih =>
    intro s h
    rcases ih (step s e) h with h1 | h1
    · rcases step_status s e with h2 | h2 | h2
      · exact Or.inl (h2 ▸ h1)
      · rw [h1] at h2; exact absurd h2 (by decide)
      · subst h2; exact Or.inr (List.mem_cons_self _ _)
    · exact Or.inr (List.mem_cons_of_mem _ h1)

theorem step_ne_disconnected (s : LS) (e : Ev)
    (h : s.status ≠ Status.disconnected) :
    (step s e).status ≠ Status.disconnected := by
  rcases step_status s e with h1 | h1 | h1
  · rw [h1]; exact h
  · rw [h1]; decide
  · subst h1
    show (onOpen s).status ≠ Status.disconnected
    unfold onOpen
    split
    · exact fun hc => Status.noConfusion hc
    · exact h

theorem run_ne_disconnected : ∀ (tr : List Ev) (s : LS),
    s.status ≠ Status.disconnected →
      (List.foldl step s tr).status ≠ Status.disconnected := by
  intro tr
  induction tr with
  | nil => intro s h; exact h
  | cons e rest ih =>
    intro s h
    exact ih (step s e) (step_ne_disconnected s e h)

/-- C5 (amended): the status starts at `connecting`; under the environment
constraint that the handshake-open callback only fires after device
acquisition succeeded, `connected` is reached only when both acquisition and
handshake-open occurred; an acquisition or connect failure during the
connecting phase yields `error`; the `onclose` callback leaves the whole
state unchanged (it does NOT transition to `error`); and no event ever
produces the `disconnected` status. -/
theorem c5_lifecycle :
    initLS.status = Status.connecting
  ∧ (∀ tr : List Ev, envOk tr → (run initLS tr).status = Status.connected →
      Ev.acquireOk ∈ tr ∧ Ev.evOpen ∈ tr)
  ∧ (step initLS Ev.acquireFail).status = Status.error
  ∧ (step initLS Ev.connectFail).status = Status.error
  ∧ (∀ s : LS, step s Ev.evClose = s)
  ∧ (∀ tr : List Ev, (run initLS tr).status ≠ Status.disconnected) := by
  refine ⟨rfl, ?_, rfl, rfl, fun s => rfl, ?_⟩
  · intro tr henv hconn
    have hmem : Ev.evOpen ∈ tr := by
      rcases run_connected_mem tr initLS hconn with h | h
      · exact absurd h (by decide)
      · exact h
    obtain ⟨i, hi⟩ := List.mem_iff_get.mp hmem
    obtain ⟨j, hj, hja⟩ := henv i hi
    exact ⟨hja ▸ List.get_mem tr j.val j.isLt, hmem⟩
  · intro tr
    exact run_ne_disconnected tr initLS (by decide)

/-- Witness for C5's trace-level part on a successful startup trace. -/
theorem c5_lifecycle_witness :
    envOk [Ev.ctxCreate, Ev.acquireOk, Ev.connectOk, Ev.evOpen]
  ∧ (run initLS [Ev.ctxCreate, Ev.acquireOk, Ev.connectOk, Ev.evOpen]).status
      = Status.connected
  ∧ Ev.acquireOk ∈ [Ev.ctxCreate, Ev.acquireOk, Ev.connectOk, Ev.evOpen]
  ∧ Ev.evOpen ∈ [Ev.ctxCreate, Ev.acquireOk, Ev.connectOk, Ev.evOpen] :=
  ⟨by decide, by decide,
   (c5_lifecycle.2.1 [Ev.ctxCreate, Ev.acquireOk, Ev.connectOk, Ev.evOpen]
     (by decide) (by decide)).1,
   (c5_lifecycle.2.1 [Ev.ctxCreate, Ev.acquireOk, Ev.connectOk, Ev.evOpen]
     (by decide) (by decide)).2⟩

/-- Counterexample to C5 as stated: an unexpected transport closure while
`connected` (no teardown having run) leaves the status at `connected` — the
`onclose` handler performs no state transition, so the state does not move
to `error` as the claim requires. -/
theorem c5_close_counterexample :
    (step (step initLS Ev.evOpen) Ev.evClose).status = Status.connected
  ∧ Status.connected ≠ Status.error
  ∧ Status.connected ≠ Status.disconnected := by
  exact ⟨rfl, by decide, by decide⟩

theorem onMessage_audio_skip (s : LS) (b : String) (now : ℚ)
    (hA : s.isActive = true) (hctx : s.outCtxSet = false) :
    onMessage s (audioMsg b) now = s := by
  cases s
  simp_all [onMessage, audioMsg]

theorem onMessage_audio_none (s : LS) (b : String) (now : ℚ)
    (hA : s.isActive = true) (hb : b ≠ "") (hctx : s.outCtxSet = true)
    (hbad : decodeBase64 b = none) :
    onMessage s (audioMsg b) now =
      { s with isSpeaking := true,
               nextStartTime := max s.nextStartTime now } := by
  cases s
  simp_all [onMessage, audioMsg]

theorem onMessage_audio_some (s : LS) (b : String) (bytes : List Nat)
    (now : ℚ) (hA : s.isActive = true) (hb : b ≠ "")
    (hctx : s.outCtxSet = true) (hgood : decodeBase64 b = some bytes) :
    onMessage s (audioMsg b) now =
      { s with isSpeaking := true,
               nextStartTime := max s.nextStartTime now
                 + ((decodeAudioData bytes 24000 1).length : ℚ) / 24000,
               scheduled := s.scheduled ++ [(max s.nextStartTime now,
                 ((decodeAudioData bytes 24000 1).length : ℚ) / 24000)],
               sources := s.sources + 1 } := by
  cases s
  simp_all [onMessage, audioMsg]

/-- C6 (evaluated at the failing interleaving): the effect cleanup run while
`getUserMedia` is still pending (`streamRef.current` still null) never stops
the microphone track that the later resolution acquires — the capture device
is released zero times, not exactly once. On the post-acquisition path all
four teardown steps do run and a duplicate cleanup releases the devices
exactly once. -/
theorem c6_teardown_leak :
    ((run initLS [Ev.ctxCreate, Ev.cleanup, Ev.acquireOk]).isActive = false
      ∧ (run initLS [Ev.ctxCreate, Ev.cleanup, Ev.acquireOk]).micLive = true
      ∧ (run initLS [Ev.ctxCreate, Ev.cleanup, Ev.acquireOk]).micStops = 0)
  ∧ ((run initLS [Ev.ctxCreate, Ev.acquireOk, Ev.cleanup]).micLive = false
      ∧ (run initLS [Ev.ctxCreate, Ev.acquireOk, Ev.cleanup]).micStops = 1
      ∧ (run initLS [Ev.ctxCreate, Ev.acquireOk, Ev.cleanup]).inCtxOpen = false
      ∧ (run initLS [Ev.ctxCreate, Ev.acquireOk, Ev.cleanup]).outCtxOpen = false
      ∧ (cleanupFn (run initLS [Ev.ctxCreate, Ev.acquireOk, Ev.cleanup])).micStops
          = 1) :=
  ⟨⟨rfl, rfl, rfl⟩, ⟨rfl, rfl, rfl, rfl, rfl⟩⟩

/-- Counterexample to C7 as stated: after a scheduled audio chunk, a
turn-complete message clears the speaking signal while the scheduled source
is still in the active set — the signal is false with a non-empty
active-set, so it is not equivalent to active-set non-emptiness. -/
theorem c7_counterexample :
    (run initLS [Ev.ctxCreate, Ev.msg (audioMsg "AAAA") 0,
        Ev.msg turnMsg 0]).sources = 1
  ∧ (run initLS [Ev.ctxCreate, Ev.msg (audioMsg "AAAA") 0,
        Ev.msg turnMsg 0]).isSpeaking = false := by
  exact ⟨rfl, rfl⟩

/-- C7 (amended): the speaking signal is set when a chunk is scheduled and
cleared when the active-set becomes empty through completion callbacks, but
a turn-complete marker also forces it false while leaving the active-set
untouched — so the signal is NOT equivalent to active-set non-emptiness. -/
theorem c7_speaking :
    (∀ s : LS, s.sources = 1 →
        (onSrcEnded s).sources = 0 ∧ (onSrcEnded s).isSpeaking = false)
  ∧ (∀ (s : LS) (now : ℚ), s.isActive = true →
        (onMessage s turnMsg now).isSpeaking = false
      ∧ (onMessage s turnMsg now).sources = s.sources)
  ∧ (∀ (s : LS) (now : ℚ) (b : String) (bytes : List Nat),
        s.isActive = true → s.outCtxSet = true → b ≠ "" →
        decodeBase64 b = some bytes →
        (onMessage s (audioMsg b) now).isSpeaking = true
      ∧ (onMessage s (audioMsg b) now).sources = s.sources + 1) := by
  refine ⟨?_, ?_, ?_⟩
  · intro s h
    simp [onSrcEnded, h]
  · intro s now h
    rw [onMessage_turn s now h]
    exact ⟨rfl, rfl⟩
  · intro s now b bytes hA hctx hb hgood
    rw [onMessage_audio_some s b bytes now hA hb hctx hgood]
    exact ⟨rfl, rfl⟩

/-- Witness for C7's amended parts at concrete states. -/
theorem c7_speaking_witness :
    ((run initLS [Ev.ctxCreate, Ev.msg (audioMsg "AAAA") 0]).sources = 1
      ∧ (onSrcEnded (run initLS
          [Ev.ctxCreate, Ev.msg (audioMsg "AAAA") 0])).sources = 0
      ∧ (onSrcEnded (run initLS
          [Ev.ctxCreate, Ev.msg (audioMsg "AAAA") 0])).isSpeaking = false)
  ∧ ((onMessage (step initLS Ev.ctxCreate) (audioMsg "AAAA") 0).isSpeaking
        = true
      ∧ (onMessage (step initLS Ev.ctxCreate) (audioMsg "AAAA") 0).sources
        = (step initLS Ev.ctxCreate).sources + 1) :=
  ⟨⟨rfl,
    (c7_speaking.1 (run initLS [Ev.ctxCreate, Ev.msg (audioMsg "AAAA") 0])
      rfl).1,
    (c7_speaking.1 (run initLS [Ev.ctxCreate, Ev.msg (audioMsg "AAAA") 0])
      rfl).2⟩,
   c7_speaking.2.2 (step initLS Ev.ctxCreate) 0 "AAAA" [0, 0, 0]
     rfl rfl (by decide) rfl⟩

/-- C8: a malformed inbound audio chunk is dropped — the decode failure
leaves the status, the transcript state, the active-set and the schedule log
unchanged and the session active — and a subsequent well-formed chunk is
scheduled normally. -/
theorem c8_decode_failure (s : LS) (now now2 : ℚ) (b : String)
    (hA : s.isActive = true) (hctx : s.outCtxSet = true)
    (hb : b ≠ "") (hbad : decodeBase64 b = none) :
    (onMessage s (audioMsg b) now).status = s.status
  ∧ (onMessage s (audioMsg b) now).asm = s.asm
  ∧ (onMessage s (audioMsg b) now).sources = s.sources
  ∧ (onMessage s (audioMsg b) now).scheduled = s.scheduled
  ∧ (onMessage s (audioMsg b) now).isActive = true
  ∧ (∀ (b2 : String) (bytes : List Nat), b2 ≠ "" →
      decodeBase64 b2 = some bytes →
      (onMessage (onMessage s (audioMsg b) now) (audioMsg b2) now2).sources
        = s.sources + 1
    ∧ (onMessage (onMessage s (audioMsg b) now) (audioMsg b2) now2).scheduled
        = s.scheduled ++ [(max (max s.nextStartTime now) now2,
            ((decodeAudioData bytes 24000 1).length : ℚ) / 24000)]) := by
  rw [onMessage_audio_none s b now hA hb hctx hbad]
  refine ⟨rfl, rfl, rfl, rfl, hA, ?_⟩
  intro b2 bytes hb2 hgood
  rw [onMessage_audio_some
    { s with isSpeaking := true, nextStartTime := max s.nextStartTime now }
    b2 bytes now2 hA hb2 hctx hgood]
  exact ⟨rfl, rfl⟩

/-- Witness for C8: a malformed chunk (`"!!!"` is not valid base64) followed
by a well-formed chunk, from the post-setup state. -/
theorem c8_decode_failure_witness :
    ((step initLS Ev.ctxCreate).isActive = true
      ∧ (step initLS Ev.ctxCreate).outCtxSet = true
      ∧ decodeBase64 "!!!" = none)
  ∧ ((onMessage (step initLS Ev.ctxCreate) (audioMsg "!!!") 0).status
        = (step initLS Ev.ctxCreate).status
      ∧ (onMessage (step initLS Ev.ctxCreate) (audioMsg "!!!") 0).sources
        = (step initLS Ev.ctxCreate).sources
      ∧ (onMessage (onMessage (step initLS Ev.ctxCreate) (audioMsg "!!!") 0)
          (audioMsg "AAAA") 1).sources = (step initLS Ev.ctxCreate).sources + 1) :=
  ⟨⟨rfl, rfl, rfl⟩,
   (c8_decode_failure (step initLS Ev.ctxCreate) 0 1 "!!!" rfl rfl
      (by decide) rfl).1,
   (c8_decode_failure (step initLS Ev.ctxCreate) 0 1 "!!!" rfl rfl
      (by decide) rfl).2.2.1,
   ((c8_decode_failure (step initLS Ev.ctxCreate) 0 1 "!!!" rfl rfl
      (by decide) rfl).2.2.2.2.2 "AAAA" [0, 0, 0] (by decide) rfl).1⟩

/-- C10: after teardown has cleared the active flag, every inbound message
event and every capture block is a strict no-op on the whole session state
(transcript, accumulators, cursor, active-set, speaking indicators, sent
frames all unchanged). -/
theorem c10_inactive_noop :
    (∀ s : LS, (cleanupFn s).isActive = false)
  ∧ (∀ (s : LS) (m : Msg) (now : ℚ), s.isActive = false →
      onMessage s m now = s)
  ∧ (∀ (s : LS) (xs : List ℚ), s.isActive = false → onAudioBlock s xs = s) := by
  refine ⟨fun s => rfl, ?_, ?_⟩
  · intro s m now h
    simp [onMessage, h]
  · intro s xs h
    simp [onAudioBlock, h]

/-- Witness for C10 at the torn-down initial state. -/
theorem c10_inactive_noop_witness :
    (cleanupFn initLS).isActive = false
  ∧ onMessage (cleanupFn initLS) turnMsg 0 = cleanupFn initLS
  ∧ onAudioBlock (cleanupFn initLS) [1, 0] = cleanupFn initLS :=
  ⟨c10_inactive_noop.1 initLS,
   c10_inactive_noop.2.1 (cleanupFn initLS) turnMsg 0 rfl,
   c10_inactive_noop.2.2 (cleanupFn initLS) [1, 0] rfl⟩

